import Mathlib

/-!
Verification of the Scotland births dashboard (`src/app.py`).

The development shallowly embeds the filter / aggregate / forecast pipeline
of the dashboard: a table is a list of rows, pandas group-by operations are
modelled by sorted deduplicated key extraction followed by per-key
filter-and-fold, fallible pandas operations (`idxmax` on an empty series,
`list.index` on a missing label, datetime construction from an invalid
month number) return `Except`/`Option`, and means are exact rationals.
-/

namespace ScotBirths

/-- A row of the source spreadsheet (`monthly region data.xlsx`):
year, month name, region, total birth count and the four age-group counts
`<20`, `20-29`, `30-39`, `40+`. -/
structure BirthRecord where
  year : Int
  month : String
  region : String
  birth_count : Int
  ageU20 : Int
  age20_29 : Int
  age30_39 : Int
  age40p : Int
deriving DecidableEq, Repr

/-- The in-memory table: a list of rows. -/
abbrev Table := List BirthRecord

/-- `month_order = list(calendar.month_name)[1:]`: the twelve canonical
English month names in calendar order. -/
def monthOrder : List String :=
  ["January", "February", "March", "April", "May", "June",
   "July", "August", "September", "October", "November", "December"]

/-- `list(calendar.month_name)`: the empty string followed by the twelve
month names (index 0 is `''`). -/
def monthNames : List String := "" :: monthOrder

/-- The age-group column labels `['<20', '20-29', '30-39', '40+']`. -/
def ageCols : List String := ["<20", "20-29", "30-39", "40+"]

/-- The sidebar filter state: inclusive year range, selected months,
selected regions and selected age-group columns. -/
structure FilterSpec where
  yearLo : Int
  yearHi : Int
  months : List String
  regions : List String
  ageGroups : List String
deriving Repr

/-- The row predicate of the dataframe filter:
`df['year'].between(lo, hi) & df['month'].isin(months) & df['region'].isin(regions)`. -/
def rowMatches (spec : FilterSpec) (r : BirthRecord) : Bool :=
  decide (spec.yearLo ≤ r.year) && decide (r.year ≤ spec.yearHi) &&
    decide (r.month ∈ spec.months) && decide (r.region ∈ spec.regions)

/-- `filtered_df = df[between & isin & isin]` (src/app.py lines 92-94). -/
def filtered_df (df : Table) (spec : FilterSpec) : Table :=
  df.filter (rowMatches spec)

/-! ### Group-by machinery

pandas `groupby(keys)` enumerates the distinct key values in ascending
order.  `insKey lt x l` inserts `x` into a strictly `lt`-sorted
duplicate-free list, and `keysBy lt key t` collects the distinct keys of a
table in ascending order. -/

/-- Insert a key into a strictly sorted duplicate-free key list. -/
def insKey {κ : Type} [DecidableEq κ] (lt : κ → κ → Bool) (x : κ) : List κ → List κ
  | [] => [x]
  | y :: ys => if lt x y then x :: y :: ys else if x = y then y :: ys else y :: insKey lt x ys

/-- The sorted list of distinct keys of a table under the key function. -/
def keysBy {κ : Type} [DecidableEq κ] (lt : κ → κ → Bool)
    (key : BirthRecord → κ) (t : Table) : List κ :=
  t.foldr (fun r ks => insKey lt (key r) ks) []

/-- Strict order on `Int` as a boolean relation. -/
def intLtB (a b : Int) : Bool := decide (a < b)

/-- Lexicographic comparison of character lists by code point (how Python
and pandas compare strings). -/
def strLtAux : List Char → List Char → Bool
  | [], [] => false
  | [], _ :: _ => true
  | _ :: _, [] => false
  | a :: as, b :: bs => if a < b then true else if b < a then false else strLtAux as bs

/-- Strict lexicographic order on `String` as a boolean relation
(pandas sorts string group keys lexicographically). -/
def strLtB (a b : String) : Bool := strLtAux a.data b.data

/-- Lexicographic order on `(year, month-name)` pairs, as used by
`groupby(['year', 'month'])`: year first, then month *name* as a string. -/
def ymLtB (a b : Int × String) : Bool :=
  decide (a.1 < b.1) || (decide (a.1 = b.1) && strLtB a.2 b.2)

/-! ### KPIs (src/app.py lines 99-102) -/

/-- `total_births = filtered_df['birth_count'].sum()`. -/
def total_births (t : Table) : Int :=
  (t.map BirthRecord.birth_count).sum

/-- The distinct regions of a table in ascending order
(the index of any `groupby('region')` result). -/
def regionKeys (t : Table) : List String := keysBy strLtB BirthRecord.region t

/-- The rows of one region group. -/
def regionRows (t : Table) (reg : String) : Table :=
  t.filter fun r => decide (r.region = reg)

/-- `groupby('region')['birth_count'].sum()` at one region. -/
def regionSum (t : Table) (reg : String) : Int :=
  ((regionRows t reg).map BirthRecord.birth_count).sum

/-- `groupby('region')['birth_count'].mean()` at one region, as an exact
rational. -/
def regionMean (t : Table) (reg : String) : ℚ :=
  (((regionRows t reg).map BirthRecord.birth_count).sum : ℚ) /
    ((regionRows t reg).length : ℚ)

/-- `avg_births = filtered_df.groupby('region')['birth_count'].mean().mean()`:
the unweighted mean of the per-region means; `none` models the NaN that the
mean of an empty series produces. -/
def avg_births (t : Table) : Option ℚ :=
  if regionKeys t = [] then none
  else some (((regionKeys t).map (regionMean t)).sum / ((regionKeys t).length : ℚ))

/-- The overall mean of `birth_count` over all rows (not computed by the
code; used to compare against `avg_births`). -/
def overall_mean (t : Table) : ℚ :=
  ((t.map BirthRecord.birth_count).sum : ℚ) / (t.length : ℚ)

/-- `Series.idxmax` over label/value pairs: index of the first occurrence of
the maximum value; raises `ValueError` on an empty series. -/
def idxmaxAux {α : Type} (best : α × Int) : List (α × Int) → α
  | [] => best.1
  | p :: ps => if best.2 < p.2 then idxmaxAux p ps else idxmaxAux best ps

/-- `idxmax` on a labelled integer series, `Except.error` on the empty one. -/
def idxmax {α : Type} : List (α × Int) → Except String α
  | [] => Except.error "attempt to get argmax of an empty sequence"
  | p :: ps => Except.ok (idxmaxAux p ps)

/-- `top_region = filtered_df.groupby('region')['birth_count'].sum().idxmax()`. -/
def top_region (t : Table) : Except String String :=
  idxmax ((regionKeys t).map fun k => (k, regionSum t k))

/-- The value of one age-group column of a row. -/
def ageValue (r : BirthRecord) (a : String) : Int :=
  if a = "<20" then r.ageU20
  else if a = "20-29" then r.age20_29
  else if a = "30-39" then r.age30_39
  else if a = "40+" then r.age40p
  else 0

/-- `dominant_age = filtered_df[selected_ages].sum().idxmax()`: per selected
age column, the column total over the table, then `idxmax`. -/
def dominant_age (t : Table) (selectedAges : List String) : Except String String :=
  idxmax (selectedAges.map fun a => (a, (t.map fun r => ageValue r a).sum))

/-! ### Chart aggregates -/

/-- The distinct years of a table in ascending order. -/
def yearKeys (t : Table) : List Int := keysBy intLtB BirthRecord.year t

/-- `yearly = filtered_df.groupby('year')['birth_count'].sum().reset_index()`
(src/app.py line 124): one `(year, sum)` row per distinct year, ascending. -/
def yearly (t : Table) : List (Int × Int) :=
  (yearKeys t).map fun y =>
    (y, ((t.filter fun r => decide (r.year = y)).map BirthRecord.birth_count).sum)

/-- The rows of one month group. -/
def monthRows (t : Table) (m : String) : Table :=
  t.filter fun r => decide (r.month = m)

/-- `groupby('month')['birth_count'].mean()` at one month, `none` (NaN) when
the month has no rows. -/
def monthMean (t : Table) (m : String) : Option ℚ :=
  if monthRows t m = [] then none
  else some (((monthRows t m).map BirthRecord.birth_count).sum /
    ((monthRows t m).length : ℚ))

/-- `monthly_avg = filtered_df.groupby('month')['birth_count'].mean()
.reindex(month_order).reset_index()` (src/app.py line 131): one row per
canonical month in calendar order, NaN for absent months. -/
def monthly_avg (t : Table) : List (String × Option ℚ) :=
  monthOrder.map fun m => (m, monthMean t m)

/-- The rows of one `(region, month)` cell. -/
def heatRows (t : Table) (reg m : String) : Table :=
  t.filter fun r => decide (r.region = reg) && decide (r.month = m)

/-- The mean `birth_count` of one `(region, month)` cell. -/
def heatMean (t : Table) (reg m : String) : ℚ :=
  (((heatRows t reg m).map BirthRecord.birth_count).sum : ℚ) /
    ((heatRows t reg m).length : ℚ)

/-- One heatmap cell: NaN (`none`) when the `(region, month)` pair has no
rows after filtering, otherwise the mean. -/
def heatCell (t : Table) (reg m : String) : Option ℚ :=
  if heatRows t reg m = [] then none else some (heatMean t reg m)

/-- `heat_df = filtered_df.groupby(['region','month'])['birth_count'].mean()
.unstack().reindex(columns=month_order)` (src/app.py line 179): one matrix
row per region present, columns the canonical months, missing combinations
NaN. -/
def heat_df (t : Table) : List (String × List (String × Option ℚ)) :=
  (regionKeys t).map fun reg => (reg, monthOrder.map fun m => (m, heatCell t reg m))

/-- Look up a heatmap cell by region row label and month column label:
outer `none` when the region row is absent, inner `none` for a NaN cell. -/
def heatLookup (t : Table) (reg m : String) : Option (Option ℚ) :=
  match (heat_df t).find? (fun p => decide (p.1 = reg)) with
  | none => none
  | some p =>
    match p.2.find? (fun q => decide (q.1 = m)) with
    | none => none
    | some q => some q.2

/-! ### Prophet forecast input (src/app.py lines 190-194) -/

/-- The distinct `(year, month-name)` pairs of a table, ordered by year and
then month name (the index of `groupby(['year','month'])`). -/
def ymKeys (t : Table) : List (Int × String) :=
  keysBy ymLtB (fun r => (r.year, r.month)) t

/-- `groupby(['year','month'])['birth_count'].sum()` at one pair. -/
def ymSum (t : Table) (p : Int × String) : Int :=
  ((t.filter fun r => decide ((r.year, r.month) = p)).map BirthRecord.birth_count).sum

/-- The grouped sum table `filtered_df.groupby(['year','month'])
['birth_count'].sum().reset_index()`. -/
def ymGroups (t : Table) : List ((Int × String) × Int) :=
  (ymKeys t).map fun p => (p, ymSum t p)

/-- Python `list.index(x)`: the index of the first occurrence, `none`
(ValueError) when absent. -/
def indexOfStr (m : String) : List String → Option Nat
  | [] => none
  | s :: rest => if s = m then some 0 else (indexOfStr m rest).map (· + 1)

/-- `list(calendar.month_name).index(x)`: month name to month number
(`''` maps to 0; unknown names raise). -/
def monthIndex (m : String) : Option Nat := indexOfStr m monthNames

/-- The month number the code assigns to a month name (0 as a default for
the error case, used only under a validity hypothesis). -/
def monthNum (m : String) : Nat := (monthIndex m).getD 0

/-- `pd.to_datetime(dict(year=y, month=m, day=1))`: a first-of-month
timestamp, represented as the `(year, month-number)` pair; fails for a
month number outside 1..12. -/
def toTimestamp (y : Int) (m : Nat) : Option (Int × Nat) :=
  if 1 ≤ m ∧ m ≤ 12 then some (y, m) else none

/-- Row-wise fallible map, first failure wins (pandas `apply` semantics). -/
def exMapM {α β : Type} (f : α → Except String β) : List α → Except String (List β)
  | [] => Except.ok []
  | a :: l =>
    match f a with
    | Except.error e => Except.error e
    | Except.ok b =>
      match exMapM f l with
      | Except.error e => Except.error e
      | Except.ok bs => Except.ok (b :: bs)

/-- The month-name-to-number step applied to one grouped row:
`prophet_df['month'].apply(lambda x: list(calendar.month_name).index(x))`. -/
def monthLookupStep (p : (Int × String) × Int) : Except String ((Int × Nat) × Int) :=
  match monthIndex p.1.2 with
  | none => Except.error "ValueError: month name is not in list"
  | some i => Except.ok ((p.1.1, i), p.2)

/-- The timestamp-construction step applied to one row:
`pd.to_datetime(dict(year=..., month=..., day=1))`. -/
def timestampStep (q : (Int × Nat) × Int) : Except String ((Int × Nat) × Int) :=
  match toTimestamp q.1.1 q.1.2 with
  | none => Except.error "ValueError: month must be in 1..12"
  | some ds => Except.ok (ds, q.2)

/-- `prophet_df` (src/app.py lines 190-194): group to `(year, month)` sums,
replace the month name by `list(calendar.month_name).index(name)`, then
build the first-of-month timestamp; the result rows are `(ds, y)` pairs.
Either conversion step can raise. -/
def prophet_df (t : Table) : Except String (List ((Int × Nat) × Int)) :=
  match exMapM monthLookupStep (ymGroups t) with
  | Except.error e => Except.error e
  | Except.ok l1 => exMapM timestampStep l1

/-- Strict first-of-month date order on `(year, month-number)` timestamps. -/
def dateLtB (a b : Int × Nat) : Bool :=
  decide (a.1 < b.1) || (decide (a.1 = b.1) && decide (a.2 < b.2))

/-- Whether a `(ds, y)` series is strictly increasing in its dates. -/
def dsStrictlySorted : List ((Int × Nat) × Int) → Bool
  | [] => true
  | [_] => true
  | a :: b :: rest => dateLtB a.1 b.1 && dsStrictlySorted (b :: rest)

/-! ### Prophet forecast output (src/app.py lines 196-207)

Prophet itself is an external black box; we model only the shape of its
interface: `make_future_dataframe(periods, freq='MS')` extends the history
dates with `periods` consecutive future months, `predict` produces one
output row per input date (back-fitted history rows included), and the
display table takes `forecast[['ds','yhat','yhat_lower','yhat_upper']]
.tail(forecast_months)`. Dates are abstract month indices. -/

/-- One row of Prophet's `predict` output (the four displayed columns). -/
structure ForecastRow where
  ds : Nat
  yhat : ℚ
  yhat_lower : ℚ
  yhat_upper : ℚ
deriving DecidableEq, Repr

/-- `model.make_future_dataframe(periods, freq='MS')`: the history dates
followed by `periods` consecutive months after the last observed one. -/
def make_future_dataframe (histDates : List Nat) (periods : Nat) : List Nat :=
  histDates ++ (List.range periods).map fun i => (histDates.getLast?.getD 0) + 1 + i

/-- `model.predict(future)`: one output row per input date, produced by the
opaque fitted model `predict`. -/
def predictAll (predict : Nat → ForecastRow) (dates : List Nat) : List ForecastRow :=
  dates.map predict

/-- The column selection `forecast[['ds','yhat','yhat_lower','yhat_upper']]`
applied to one row. -/
def selectCols (r : ForecastRow) : Nat × ℚ × ℚ × ℚ :=
  (r.ds, r.yhat, r.yhat_lower, r.yhat_upper)

/-- `forecast_display = forecast[['ds','yhat','yhat_lower','yhat_upper']]
.tail(forecast_months)` (src/app.py line 206): the last `h` rows of the
full output. -/
def forecast_display (forecast : List ForecastRow) (h : Nat) : List (Nat × ℚ × ℚ × ℚ) :=
  (forecast.map selectCols).drop (forecast.length - h)

/-! ### Properties of the group-by key machinery -/

theorem mem_insKey {κ : Type} [DecidableEq κ] (lt : κ → κ → Bool) (x a : κ)
    (l : List κ) : a ∈ insKey lt x l ↔ a = x ∨ a ∈ l := by
  induction l with
  | nil => simp [insKey]
  | cons y ys ih =>
    by_cases h1 : lt x y = true
    · simp [insKey, h1, List.mem_cons]
    · by_cases h2 : x = y
      · subst h2
        simp [insKey, h1, List.mem_cons]
      · simp [insKey, h1, h2, List.mem_cons, ih]
        tauto

theorem head?_insKey {κ : Type} [DecidableEq κ] (lt : κ → κ → Bool) (x : κ)
    (l : List κ) :
    (insKey lt x l).head? = some x ∨ (insKey lt x l).head? = l.head? := by
  cases l with
  | nil => left; rfl
  | cons y ys =>
    by_cases h1 : lt x y = true
    · left; simp [insKey, h1]
    · by_cases h2 : x = y
      · subst h2
        right
        simp [insKey, h1]
      · right; simp [insKey, h1, h2]

theorem chain'_insKey {κ : Type} [DecidableEq κ] (lt : κ → κ → Bool)
    (htot : ∀ a b : κ, lt a b = false → a ≠ b → lt b a = true)
    (x : κ) (l : List κ) (h : List.Chain' (fun a b => lt a b = true) l) :
    List.Chain' (fun a b => lt a b = true) (insKey lt x l) := by
  induction l with
  | nil => simp [insKey]
  | cons y ys ih =>
    rw [List.chain'_cons'] at h
    obtain ⟨hy, hys⟩ := h
    by_cases h1 : lt x y = true
    · simp only [insKey, if_pos h1]
      rw [List.chain'_cons']
      refine ⟨?_, List.chain'_cons'.mpr ⟨hy, hys⟩⟩
      intro b hb
      simp only [List.head?_cons, Option.mem_def, Option.some.injEq] at hb
      subst hb
      exact h1
    · by_cases h2 : x = y
      · subst h2
        simpa [insKey, h1] using List.chain'_cons'.mpr ⟨hy, hys⟩
      · simp only [insKey, if_neg h1, if_neg h2]
        rw [List.chain'_cons']
        refine ⟨?_, ih hys⟩
        intro b hb
        rcases head?_insKey lt x ys with hh | hh
        · rw [hh] at hb
          simp only [Option.mem_def, Option.some.injEq] at hb
          subst hb
          exact htot x y (by simpa using h1) h2
        · rw [hh] at hb
          exact hy b hb

theorem chain'_keysBy {κ : Type} [DecidableEq κ] (lt : κ → κ → Bool)
    (htot : ∀ a b : κ, lt a b = false → a ≠ b → lt b a = true)
    (key : BirthRecord → κ) (t : Table) :
    List.Chain' (fun a b => lt a b = true) (keysBy lt key t) := by
  induction t with
  | nil => simp [keysBy]
  | cons r t ih => exact chain'_insKey lt htot (key r) (keysBy lt key t) ih

theorem pairwise_of_chainLt {κ : Type} (lt : κ → κ → Bool)
    (htrans : ∀ a b c : κ, lt a b = true → lt b c = true → lt a c = true)
    (l : List κ) (h : List.Chain' (fun a b => lt a b = true) l) :
    List.Pairwise (fun a b => lt a b = true) l := by
  haveI : IsTrans κ (fun a b => lt a b = true) := ⟨htrans⟩
  exact List.chain'_iff_pairwise.mp h

theorem nodup_keysBy {κ : Type} [DecidableEq κ] (lt : κ → κ → Bool)
    (hirr : ∀ a : κ, lt a a = false)
    (htrans : ∀ a b c : κ, lt a b = true → lt b c = true → lt a c = true)
    (htot : ∀ a b : κ, lt a b = false → a ≠ b → lt b a = true)
    (key : BirthRecord → κ) (t : Table) :
    (keysBy lt key t).Nodup := by
  have hp := pairwise_of_chainLt lt htrans _ (chain'_keysBy lt htot key t)
  exact hp.imp fun hab hEq => by subst hEq; simp [hirr] at hab

theorem mem_keysBy {κ : Type} [DecidableEq κ] (lt : κ → κ → Bool)
    (key : BirthRecord → κ) (t : Table) (k : κ) :
    k ∈ keysBy lt key t ↔ ∃ r ∈ t, key r = k := by
  induction t with
  | nil => simp [keysBy]
  | cons r t ih =>
    rw [show keysBy lt key (r :: t) = insKey lt (key r) (keysBy lt key t) from rfl,
      mem_insKey]
    constructor
    · rintro (rfl | hk)
      · exact ⟨r, List.mem_cons_self r t, rfl⟩
      · obtain ⟨x, hx, hkx⟩ := ih.mp hk
        exact ⟨x, List.mem_cons_of_mem r hx, hkx⟩
    · rintro ⟨x, hx, rfl⟩
      rcases List.mem_cons.mp hx with rfl | hx'
      · exact Or.inl rfl
      · exact Or.inr (ih.mpr ⟨x, hx', rfl⟩)

/-! ### The group-by partition lemma -/

theorem sum_map_ite_of_not_mem {κ : Type} [DecidableEq κ] (k0 : κ) (c : Int)
    (g : κ → Int) (ks : List κ) (hk : k0 ∉ ks) :
    (ks.map fun y => (if k0 = y then c else 0) + g y).sum = (ks.map g).sum := by
  induction ks with
  | nil => simp
  | cons y ys ih =>
    simp only [List.map_cons, List.sum_cons]
    have h1 : k0 ≠ y := fun h => hk (h ▸ List.mem_cons_self y ys)
    rw [if_neg h1, ih (fun h => hk (List.mem_cons_of_mem y h))]
    ring

theorem sum_map_ite_add {κ : Type} [DecidableEq κ] (k0 : κ) (c : Int)
    (g : κ → Int) (ks : List κ) (hnd : ks.Nodup) (hk : k0 ∈ ks) :
    (ks.map fun y => (if k0 = y then c else 0) + g y).sum = c + (ks.map g).sum := by
  induction ks with
  | nil => simp at hk
  | cons y ys ih =>
    simp only [List.map_cons, List.sum_cons]
    rcases List.mem_cons.mp hk with rfl | hk'
    · rw [if_pos rfl,
        sum_map_ite_of_not_mem k0 c g ys (List.nodup_cons.mp hnd).1]
      ring
    · have h1 : k0 ≠ y := by
        rintro rfl
        exact (List.nodup_cons.mp hnd).1 hk'
      rw [if_neg h1, ih (List.nodup_cons.mp hnd).2 hk']
      ring

/-- pandas group-by partitions the table: summing the per-key group sums over
any duplicate-free key list covering all rows recovers the full-table sum. -/
theorem sum_of_groups {κ : Type} [DecidableEq κ] (key : BirthRecord → κ)
    (ks : List κ) (hnd : ks.Nodup) (t : Table) (hmem : ∀ r ∈ t, key r ∈ ks) :
    (ks.map fun k =>
        ((t.filter fun r => decide (key r = k)).map BirthRecord.birth_count).sum).sum
      = (t.map BirthRecord.birth_count).sum := by
  induction t with
  | nil => simp
  | cons r t ih =>
    have hr : key r ∈ ks := hmem r (List.mem_cons_self r t)
    have ht : ∀ x ∈ t, key x ∈ ks := fun x hx => hmem x (List.mem_cons_of_mem r hx)
    have hstep : (ks.map fun k =>
          (((r :: t).filter fun x => decide (key x = k)).map BirthRecord.birth_count).sum)
        = ks.map fun k =>
          (if key r = k then r.birth_count else 0)
            + ((t.filter fun x => decide (key x = k)).map BirthRecord.birth_count).sum := by
      apply List.map_congr_left
      intro k _
      by_cases h : key r = k
      · simp [List.filter_cons, h]
      · simp [List.filter_cons, h]
    rw [hstep, sum_map_ite_add (key r) _ _ ks hnd hr, ih ht]
    simp

/-! ### The concrete key orders -/

theorem intLtB_irrefl (a : Int) : intLtB a a = false := by simp [intLtB]

theorem intLtB_trans (a b c : Int) (h1 : intLtB a b = true) (h2 : intLtB b c = true) :
    intLtB a c = true := by
  simp [intLtB] at *
  omega

theorem intLtB_total (a b : Int) (h1 : intLtB a b = false) (h2 : a ≠ b) :
    intLtB b a = true := by
  simp [intLtB] at *
  omega

theorem strLtAux_irrefl : ∀ l : List Char, strLtAux l l = false
  | [] => rfl
  | a :: as => by simp [strLtAux, lt_self_iff_false, strLtAux_irrefl as]

theorem strLtAux_trans : ∀ l1 l2 l3 : List Char,
    strLtAux l1 l2 = true → strLtAux l2 l3 = true → strLtAux l1 l3 = true := by
  intro l1
  induction l1 with
  | nil =>
    intro l2 l3 h1 h2
    cases l2 with
    | nil => simp [strLtAux] at h1
    | cons b bs =>
      cases l3 with
      | nil => simp [strLtAux] at h2
      | cons c cs => rfl
  | cons a as ih =>
    intro l2 l3 h1 h2
    cases l2 with
    | nil => simp [strLtAux] at h1
    | cons b bs =>
      cases l3 with
      | nil => simp [strLtAux] at h2
      | cons c cs =>
        simp only [strLtAux] at h1 h2 ⊢
        by_cases hab : a < b
        · by_cases hbc : b < c
          · have hac : a < c := lt_trans hab hbc
            simp [hac]
          · by_cases hcb : c < b
            · simp [hbc, hcb] at h2
            · have hbc' : b = c := le_antisymm (not_lt.mp hcb) (not_lt.mp hbc)
              subst hbc'
              simp [hab]
        · by_cases hba : b < a
          · simp [hab, hba] at h1
          · have hab' : a = b := le_antisymm (not_lt.mp hba) (not_lt.mp hab)
            subst hab'
            simp only [lt_self_iff_false, if_false] at h1
            by_cases hac : a < c
            · simp [hac]
            · by_cases hca : c < a
              · simp [hac, hca] at h2
              · have hac' : a = c := le_antisymm (not_lt.mp hca) (not_lt.mp hac)
                subst hac'
                simp only [lt_self_iff_false, if_false] at h2 ⊢
                exact ih bs cs h1 h2

theorem strLtAux_total : ∀ l1 l2 : List Char,
    strLtAux l1 l2 = false → l1 ≠ l2 → strLtAux l2 l1 = true := by
  intro l1
  induction l1 with
  | nil =>
    intro l2 h1 h2
    cases l2 with
    | nil => exact absurd rfl h2
    | cons b bs => simp [strLtAux] at h1
  | cons a as ih =>
    intro l2 h1 h2
    cases l2 with
    | nil => rfl
    | cons b bs =>
      simp only [strLtAux] at h1 ⊢
      by_cases hab : a < b
      · simp [hab] at h1
      · by_cases hba : b < a
        · simp [hba]
        · have hab' : a = b := le_antisymm (not_lt.mp hba) (not_lt.mp hab)
          subst hab'
          simp only [lt_self_iff_false, if_false] at h1 ⊢
          refine ih bs h1 ?_
          intro hc
          exact h2 (by rw [hc])

theorem strLtB_irrefl (a : String) : strLtB a a = false := strLtAux_irrefl a.data

theorem strLtB_trans (a b c : String) (h1 : strLtB a b = true) (h2 : strLtB b c = true) :
    strLtB a c = true :=
  strLtAux_trans a.data b.data c.data h1 h2

theorem strLtB_total (a b : String) (h1 : strLtB a b = false) (h2 : a ≠ b) :
    strLtB b a = true := by
  refine strLtAux_total a.data b.data h1 ?_
  intro hd
  exact h2 (String.ext hd)

theorem ymLtB_irrefl (a : Int × String) : ymLtB a a = false := by
  simp [ymLtB, strLtB_irrefl]

theorem ymLtB_trans (a b c : Int × String) (h1 : ymLtB a b = true)
    (h2 : ymLtB b c = true) : ymLtB a c = true := by
  simp only [ymLtB, Bool.or_eq_true, Bool.and_eq_true, decide_eq_true_eq] at *
  rcases h1 with h1 | ⟨h1e, h1s⟩ <;> rcases h2 with h2 | ⟨h2e, h2s⟩
  · exact Or.inl (by omega)
  · exact Or.inl (by omega)
  · exact Or.inl (by omega)
  · exact Or.inr ⟨by omega, strLtB_trans a.2 b.2 c.2 h1s h2s⟩

theorem ymLtB_total (a b : Int × String) (h1 : ymLtB a b = false) (h2 : a ≠ b) :
    ymLtB b a = true := by
  simp only [ymLtB, Bool.or_eq_false_iff, Bool.and_eq_false_iff,
    decide_eq_false_iff_not, Bool.or_eq_true, Bool.and_eq_true, decide_eq_true_eq] at *
  obtain ⟨hy, hm⟩ := h1
  by_cases he : a.1 = b.1
  · rcases hm with hm | hm
    · exact absurd he hm
    · have hne : a.2 ≠ b.2 := by
        intro hs
        exact h2 (Prod.ext he hs)
      exact Or.inr ⟨he.symm, strLtB_total a.2 b.2 hm hne⟩
  · exact Or.inl (by omega)

instance {ε α : Type} [DecidableEq ε] [DecidableEq α] : DecidableEq (Except ε α) := fun a b =>
  match a, b with
  | Except.error e1, Except.error e2 =>
    if h : e1 = e2 then isTrue (by rw [h]) else isFalse (by intro hc; cases hc; exact h rfl)
  | Except.error _, Except.ok _ => isFalse (fun hc => Except.noConfusion hc)
  | Except.ok _, Except.error _ => isFalse (fun hc => Except.noConfusion hc)
  | Except.ok a1, Except.ok a2 =>
    if h : a1 = a2 then isTrue (by rw [h]) else isFalse (by intro hc; cases hc; exact h rfl)

/-! ### Instantiated group-key facts -/

theorem nodup_yearKeys (t : Table) : (yearKeys t).Nodup :=
  nodup_keysBy intLtB intLtB_irrefl intLtB_trans intLtB_total BirthRecord.year t

theorem mem_yearKeys (t : Table) (y : Int) :
    y ∈ yearKeys t ↔ ∃ r ∈ t, r.year = y :=
  mem_keysBy intLtB BirthRecord.year t y

theorem nodup_regionKeys (t : Table) : (regionKeys t).Nodup :=
  nodup_keysBy strLtB strLtB_irrefl strLtB_trans strLtB_total BirthRecord.region t

theorem mem_regionKeys (t : Table) (reg : String) :
    reg ∈ regionKeys t ↔ ∃ r ∈ t, r.region = reg :=
  mem_keysBy strLtB BirthRecord.region t reg

theorem nodup_ymKeys (t : Table) : (ymKeys t).Nodup :=
  nodup_keysBy ymLtB ymLtB_irrefl ymLtB_trans ymLtB_total (fun r => (r.year, r.month)) t

theorem mem_ymKeys (t : Table) (p : Int × String) :
    p ∈ ymKeys t ↔ ∃ r ∈ t, (r.year, r.month) = p :=
  mem_keysBy ymLtB (fun r => (r.year, r.month)) t p

/-- Projecting the first components out of a key-indexed aggregate list
recovers the key list. -/
theorem map_fst_map_pair {α β : Type} (l : List α) (g : α → β) :
    (l.map fun m => (m, g m)).map Prod.fst = l := by
  rw [List.map_map]
  exact List.map_id l

/-! ### Claim theorems -/

/-- C1 (code_bug evidence): with an empty filtered table, the `top_region`
KPI raises `ValueError: attempt to get argmax of an empty sequence` from
`idxmax` over the empty region group-by series, instead of returning a
defined placeholder value. -/
theorem top_region_empty_raises :
    top_region ([] : Table) =
      Except.error "attempt to get argmax of an empty sequence" := rfl

/-- C2: the filter returns exactly the rows whose year lies in the inclusive
year range, whose month is among the selected months and whose region is
among the selected regions; consequently the filtered row count never
exceeds the input row count, and the result does not depend on the
age-group selection. -/
theorem filtered_df_spec (df : Table) (spec : FilterSpec) :
    (∀ r : BirthRecord, r ∈ filtered_df df spec ↔
        r ∈ df ∧ spec.yearLo ≤ r.year ∧ r.year ≤ spec.yearHi ∧
          r.month ∈ spec.months ∧ r.region ∈ spec.regions)
    ∧ (filtered_df df spec).length ≤ df.length
    ∧ ∀ ags : List String,
        filtered_df df { spec with ageGroups := ags } = filtered_df df spec := by
  refine ⟨?_, ?_, ?_⟩
  · intro r
    simp [filtered_df, rowMatches, List.mem_filter, Bool.and_eq_true,
      decide_eq_true_eq, and_assoc]
  · exact List.length_filter_le _ _
  · intro ags
    rfl

/-- C3: the sum over all years of the yearly group-by-sum of `birth_count`
equals the sum of `birth_count` over the whole filtered table. -/
theorem yearly_conserves_total (t : Table) :
    ((yearly t).map Prod.snd).sum = total_births t := by
  unfold yearly total_births
  rw [List.map_map]
  exact sum_of_groups BirthRecord.year (yearKeys t) (nodup_yearKeys t) t
    (fun r hr => (mem_yearKeys t r.year).mpr ⟨r, hr, rfl⟩)

/-- C5: for every table, the month-based aggregates (the
average-births-per-month series and the heatmap columns) list months in
canonical calendar order January through December, independent of the order
months appear in the data. -/
theorem month_aggregates_canonical (t : Table) :
    (monthly_avg t).map Prod.fst = monthOrder
    ∧ (heat_df t).map (fun p => p.2.map Prod.fst)
        = List.replicate (regionKeys t).length monthOrder := by
  constructor
  · exact map_fst_map_pair monthOrder (monthMean t)
  · unfold heat_df
    rw [List.map_map]
    have h2 : ((fun p : String × List (String × Option ℚ) => p.2.map Prod.fst) ∘
        fun reg => (reg, monthOrder.map fun m => (m, heatCell t reg m)))
        = fun _ : String => monthOrder := by
      funext reg
      exact map_fst_map_pair monthOrder (heatCell t reg)
    rw [h2, List.map_const']

/-- The concrete source table of the C8 scenario: one region `"East"` with
`birth_count = 100` in every month of 2020 and 2021. -/
def eastTable : Table :=
  (monthOrder.map fun m => ⟨2020, m, "East", 100, 10, 40, 30, 20⟩)
    ++ (monthOrder.map fun m => ⟨2021, m, "East", 100, 10, 40, 30, 20⟩)

/-- The C8 filter: years 2020-2021, all twelve months, region `"East"`, all
age groups. -/
def eastSpec : FilterSpec := ⟨2020, 2021, monthOrder, ["East"], ageCols⟩

/-- C8: on the concrete East-only table, filtering with the full selection
yields total births 2400, top region `"East"` and the yearly aggregate
`[(2020, 1200), (2021, 1200)]`. -/
theorem east_scenario :
    total_births (filtered_df eastTable eastSpec) = 2400
    ∧ top_region (filtered_df eastTable eastSpec) = Except.ok "East"
    ∧ yearly (filtered_df eastTable eastSpec) = [(2020, 1200), (2021, 1200)] :=
  ⟨by decide, by decide, by decide⟩

/-! ### C6: heatmap cells -/

/-- `find?` over a key-indexed aggregate list located by key. -/
theorem find?_map_pair {α β : Type} [DecidableEq α] (l : List α) (g : α → β) (a : α) :
    (l.map fun k => (k, g k)).find? (fun p => decide (p.1 = a))
      = if a ∈ l then some (a, g a) else none := by
  induction l with
  | nil => simp
  | cons k ks ih =>
    simp only [List.map_cons]
    by_cases hk : k = a
    · subst hk
      rw [List.find?_cons_of_pos _ (by simp)]
      rw [if_pos (List.mem_cons_self k ks)]
    · rw [List.find?_cons_of_neg _ (by simp [hk])]
      rw [ih]
      have hiff : (a ∈ ks) ↔ (a ∈ k :: ks) := by
        simp [List.mem_cons, Ne.symm hk]
      exact if_congr hiff rfl rfl

/-- For a canonical month column, a heatmap lookup reduces to the region row
check and the cell function. -/
theorem heatLookup_eq (t : Table) (reg mon : String) (hmon : mon ∈ monthOrder) :
    heatLookup t reg mon =
      if reg ∈ regionKeys t then some (heatCell t reg mon) else none := by
  unfold heatLookup heat_df
  rw [find?_map_pair]
  by_cases hreg : reg ∈ regionKeys t
  · rw [if_pos hreg, if_pos hreg]
    simp only
    rw [find?_map_pair, if_pos hmon]
  · rw [if_neg hreg, if_neg hreg]

/-- C6: for every filtered table, region and canonical month, a `(region,
month)` pair with zero matching rows never produces a numeric heatmap cell
(it is missing/NaN), while a pair with at least one row produces the numeric
mean — so a NaN cell is distinguishable from a true zero mean. -/
theorem heat_cell_missing (t : Table) (reg mon : String) (hmon : mon ∈ monthOrder) :
    (heatRows t reg mon = [] → ∀ x : ℚ, heatLookup t reg mon ≠ some (some x))
    ∧ (heatRows t reg mon ≠ [] →
        heatLookup t reg mon = some (some (heatMean t reg mon))) := by
  constructor
  · intro hempty x
    rw [heatLookup_eq t reg mon hmon]
    by_cases hreg : reg ∈ regionKeys t
    · rw [if_pos hreg]
      simp [heatCell, hempty]
    · rw [if_neg hreg]
      simp
  · intro hne
    have hreg : reg ∈ regionKeys t := by
      obtain ⟨r, hr⟩ := List.exists_mem_of_ne_nil _ hne
      have hr' := List.mem_filter.mp hr
      refine (mem_regionKeys t reg).mpr ⟨r, hr'.1, ?_⟩
      have := hr'.2
      simp only [Bool.and_eq_true, decide_eq_true_eq] at this
      exact this.1
    rw [heatLookup_eq t reg mon hmon, if_pos hreg]
    simp [heatCell, hne]

/-- A one-row table whose single cell has a true zero mean (used to witness
the C6 theorem). -/
def heatWitnessTable : Table := [⟨2020, "January", "A", 0, 0, 0, 0, 0⟩]

/-- C6 witness: on the concrete one-row table, the hypotheses of the C6
theorem hold and the `("A", "January")` cell is the numeric zero mean. -/
theorem heat_cell_missing_witness :
    ("January" ∈ monthOrder ∧ heatRows heatWitnessTable "A" "January" ≠ []) ∧
      heatLookup heatWitnessTable "A" "January"
        = some (some (heatMean heatWitnessTable "A" "January")) :=
  ⟨⟨by decide, by decide⟩,
    (heat_cell_missing heatWitnessTable "A" "January" (by decide)).2 (by decide)⟩

/-! ### C7: forecast display table -/

/-- C7: when the fitted model's full output covers the history dates plus
`h` future months (one predicted row per date of `make_future_dataframe`),
the display table is exactly the last `h` rows of the full output — the
rows after the back-fitted historical estimates — it has `h` rows, and
(when `predict` echoes each input date) its dates are exactly the `h`
future months. -/
theorem forecast_display_last_rows (predict : Nat → ForecastRow) (hist : List Nat)
    (h : Nat) (hpos : 0 < h) (hds : ∀ d, (predict d).ds = d) :
    forecast_display (predictAll predict (make_future_dataframe hist h)) h
        = ((predictAll predict (make_future_dataframe hist h)).map selectCols).drop
            hist.length
    ∧ (forecast_display (predictAll predict (make_future_dataframe hist h)) h).length = h
    ∧ (forecast_display (predictAll predict (make_future_dataframe hist h)) h).map
          (fun q => q.1)
        = (List.range h).map fun i => (hist.getLast?.getD 0) + 1 + i := by
  have hlen : (predictAll predict (make_future_dataframe hist h)).length
      = hist.length + h := by
    simp [predictAll, make_future_dataframe]
  have hmain : forecast_display (predictAll predict (make_future_dataframe hist h)) h
      = ((predictAll predict (make_future_dataframe hist h)).map selectCols).drop
          hist.length := by
    unfold forecast_display
    rw [hlen, show hist.length + h - h = hist.length from by omega]
  refine ⟨hmain, ?_, ?_⟩
  · rw [hmain, List.length_drop, List.length_map, hlen]
    omega
  · rw [hmain]
    unfold predictAll make_future_dataframe
    rw [List.map_map, ← List.map_drop, List.drop_left, List.map_map, List.map_map]
    apply List.map_congr_left
    intro i _
    simp [selectCols, hds]

/-- A concrete constant forecaster echoing the input date (used to witness
the C7 theorem). -/
def flatPredict : Nat → ForecastRow := fun d => ⟨d, 7, 6, 8⟩

/-- C7 witness: the C7 theorem instantiated at the concrete two-point
history `[5, 6]` with horizon 2 and the constant forecaster. -/
theorem forecast_display_last_rows_witness :
    (0 < 2 ∧ ∀ d, (flatPredict d).ds = d) ∧
      (forecast_display (predictAll flatPredict (make_future_dataframe [5, 6] 2)) 2
          = ((predictAll flatPredict (make_future_dataframe [5, 6] 2)).map
              selectCols).drop ([5, 6] : List Nat).length
        ∧ (forecast_display (predictAll flatPredict
              (make_future_dataframe [5, 6] 2)) 2).length = 2
        ∧ (forecast_display (predictAll flatPredict
              (make_future_dataframe [5, 6] 2)) 2).map (fun q => q.1)
            = (List.range 2).map fun i => (([5, 6] : List Nat).getLast?.getD 0) + 1 + i) :=
  ⟨⟨by decide, fun d => rfl⟩,
    forecast_display_last_rows flatPredict [5, 6] 2 (by decide) (fun d => rfl)⟩

/-! ### C9: the Avg Births/Region KPI -/

/-- Spec-side reading of the KPI: the set of regions of the table (here
enumerated by `dedup`, independently of the group-by's sorted enumeration). -/
def specRegionList (t : Table) : List String := (t.map BirthRecord.region).dedup

/-- Spec-side reading of the KPI wording: the unweighted arithmetic mean of
the per-region mean `birth_count` values. -/
def spec_mean_of_region_means (t : Table) : ℚ :=
  ((specRegionList t).map (regionMean t)).sum / ((specRegionList t).length : ℚ)

/-- A table in which regions "A" and "B" contribute unequal row counts but
every row has the same `birth_count`, so the mean of means coincides with
the overall mean. -/
def equalTable : Table :=
  [⟨2020, "January", "A", 10, 1, 4, 3, 2⟩,
   ⟨2020, "January", "B", 10, 1, 4, 3, 2⟩,
   ⟨2020, "February", "B", 10, 1, 4, 3, 2⟩]

/-- A table in which regions "A" and "B" contribute unequal row counts and
the mean of means differs from the overall mean. -/
def unequalTable : Table :=
  [⟨2020, "January", "A", 10, 1, 4, 3, 2⟩,
   ⟨2020, "January", "B", 20, 2, 8, 6, 4⟩,
   ⟨2020, "February", "B", 20, 2, 8, 6, 4⟩]

theorem equalTable_avg : avg_births equalTable = some (overall_mean equalTable) := by
  have hK : regionKeys equalTable = ["A", "B"] := by decide
  have hA : regionRows equalTable "A" = [⟨2020, "January", "A", 10, 1, 4, 3, 2⟩] := by
    decide
  have hB : regionRows equalTable "B" =
      [⟨2020, "January", "B", 10, 1, 4, 3, 2⟩,
       ⟨2020, "February", "B", 10, 1, 4, 3, 2⟩] := by decide
  unfold avg_births overall_mean
  rw [hK, if_neg (by decide)]
  unfold regionMean
  simp only [List.map_cons, List.map_nil, List.sum_cons, List.sum_nil]
  rw [hA, hB]
  unfold equalTable
  simp only [List.map_cons, List.map_nil, List.sum_cons, List.sum_nil,
    List.length_cons, List.length_nil]
  norm_num

/-- C9 counterexample: on `equalTable` the regions contribute unequal row
counts (1 vs 2), yet the KPI equals the overall mean of `birth_count` —
refuting the claim that the two values differ *whenever* the counts are
unequal. -/
theorem avg_births_not_always_different :
    (regionRows equalTable "A").length ≠ (regionRows equalTable "B").length
    ∧ avg_births equalTable = some (overall_mean equalTable) :=
  ⟨by decide, equalTable_avg⟩

/-- C9 (amended): the KPI is the unweighted arithmetic mean of the
per-region mean `birth_count` values, which *can* differ from the overall
mean when regions contribute unequal row counts (but need not). -/
theorem avg_births_mean_of_means :
    (∀ t : Table, t ≠ [] → avg_births t = some (spec_mean_of_region_means t))
    ∧ ∃ t : Table, (regionRows t "A").length ≠ (regionRows t "B").length
        ∧ avg_births t ≠ some (overall_mean t) := by
  constructor
  · intro t ht
    have hne : regionKeys t ≠ [] := by
      cases t with
      | nil => exact absurd rfl ht
      | cons r t' =>
        intro hk
        have hmem : r.region ∈ regionKeys (r :: t') :=
          (mem_regionKeys (r :: t') r.region).mpr ⟨r, List.mem_cons_self r t', rfl⟩
        rw [hk] at hmem
        exact absurd hmem (List.not_mem_nil _)
    have hperm : List.Perm (regionKeys t) (specRegionList t) := by
      unfold specRegionList
      rw [List.perm_ext_iff_of_nodup (nodup_regionKeys t) (List.nodup_dedup _)]
      intro a
      simp [mem_regionKeys, List.mem_dedup, List.mem_map]
    unfold avg_births spec_mean_of_region_means
    rw [if_neg hne, (hperm.map (regionMean t)).sum_eq, hperm.length_eq]
  · refine ⟨unequalTable, by decide, ?_⟩
    have hK : regionKeys unequalTable = ["A", "B"] := by decide
    have hA : regionRows unequalTable "A" = [⟨2020, "January", "A", 10, 1, 4, 3, 2⟩] := by
      decide
    have hB : regionRows unequalTable "B" =
        [⟨2020, "January", "B", 20, 2, 8, 6, 4⟩,
         ⟨2020, "February", "B", 20, 2, 8, 6, 4⟩] := by decide
    unfold avg_births overall_mean
    rw [hK, if_neg (by decide)]
    unfold regionMean
    simp only [List.map_cons, List.map_nil, List.sum_cons, List.sum_nil]
    rw [hA, hB]
    unfold unequalTable
    simp only [List.map_cons, List.map_nil, List.sum_cons, List.sum_nil,
      List.length_cons, List.length_nil]
    norm_num

/-- C9 witness: the first part of the amended C9 theorem instantiated at the
concrete `equalTable`. -/
theorem avg_births_mean_of_means_witness :
    equalTable ≠ [] ∧ avg_births equalTable = some (spec_mean_of_region_means equalTable) :=
  ⟨by decide, avg_births_mean_of_means.1 equalTable (by decide)⟩

/-! ### C4 and C10: the Prophet input series -/

theorem exMapM_congr_ok {α β : Type} (f : α → Except String β) (g : α → β)
    (l : List α) (h : ∀ a ∈ l, f a = Except.ok (g a)) :
    exMapM f l = Except.ok (l.map g) := by
  induction l with
  | nil => rfl
  | cons a l ih =>
    simp only [exMapM, h a (List.mem_cons_self a l), List.map_cons]
    rw [ih fun x hx => h x (List.mem_cons_of_mem a hx)]

theorem exMapM_error_of_mem {α β : Type} (f : α → Except String β) (l : List α)
    (a : α) (ha : a ∈ l) (e : String) (hf : f a = Except.error e) :
    ∃ e2, exMapM f l = Except.error e2 := by
  induction l with
  | nil => simp at ha
  | cons b l ih =>
    rcases List.mem_cons.mp ha with rfl | ha'
    · exact ⟨e, by simp [exMapM, hf]⟩
    · cases hfb : f b with
      | error eb => exact ⟨eb, by simp [exMapM, hfb]⟩
      | ok vb =>
        obtain ⟨e2, he2⟩ := ih ha'
        exact ⟨e2, by simp [exMapM, hfb, he2]⟩

theorem exMapM_mem_ok {α β : Type} (f : α → Except String β) (a : α) (b : β)
    (hfa : f a = Except.ok b) :
    ∀ (l : List α) (res : List β), exMapM f l = Except.ok res → a ∈ l → b ∈ res := by
  intro l
  induction l with
  | nil =>
    intro res _ ha
    simp at ha
  | cons c l ih =>
    intro res hok ha
    cases hfc : f c with
    | error ec => simp [exMapM, hfc] at hok
    | ok vc =>
      cases hrest : exMapM f l with
      | error er => simp [exMapM, hfc, hrest] at hok
      | ok vs =>
        simp only [exMapM, hfc, hrest] at hok
        cases hok
        rcases List.mem_cons.mp ha with rfl | ha'
        · rw [hfc] at hfa
          cases hfa
          exact List.mem_cons_self _ _
        · exact List.mem_cons_of_mem _ (ih _ hrest ha')

/-- Every canonical month name looks up to its calendar number 1..12. -/
theorem monthIndex_of_mem : ∀ m ∈ monthOrder,
    monthIndex m = some (monthNum m) ∧ 1 ≤ monthNum m ∧ monthNum m ≤ 12 := by decide

theorem indexOfStr_eq_none_of_not_mem (m : String) :
    ∀ l : List String, m ∉ l → indexOfStr m l = none := by
  intro l
  induction l with
  | nil => intro; rfl
  | cons s rest ih =>
    intro hm
    have h1 : s ≠ m := fun h => hm (h ▸ List.mem_cons_self s rest)
    simp [indexOfStr, h1, ih fun h => hm (List.mem_cons_of_mem s h)]

/-- A month string outside the twelve canonical names either fails the
calendar lookup outright, or is the empty string (which Python maps to
index 0, an invalid month number). -/
theorem monthIndex_not_canonical (m : String) (hm : m ∉ monthOrder) :
    monthIndex m = none ∨ (m = "" ∧ monthIndex m = some 0) := by
  by_cases he : m = ""
  · subst he
    exact Or.inr ⟨rfl, rfl⟩
  · left
    have hnm : m ∉ monthNames := by
      unfold monthNames
      rw [List.mem_cons]
      rintro (h | h)
      · exact he h
      · exact hm h
    exact indexOfStr_eq_none_of_not_mem m monthNames hnm

/-- When every month of the table is canonical, the Prophet input builds
successfully and is exactly the `(year, month)`-grouped sums with month
names replaced by their calendar numbers. -/
theorem prophet_df_ok (t : Table) (hval : ∀ r ∈ t, r.month ∈ monthOrder) :
    prophet_df t = Except.ok ((ymKeys t).map fun p => ((p.1, monthNum p.2), ymSum t p)) := by
  have hmem : ∀ p ∈ ymGroups t, p.1.2 ∈ monthOrder := by
    intro p hp
    unfold ymGroups at hp
    obtain ⟨k, hk, hpk⟩ := List.mem_map.mp hp
    obtain ⟨r, hr, hkr⟩ := (mem_ymKeys t k).mp hk
    rw [← hpk]
    simp only
    rw [← hkr]
    exact hval r hr
  unfold prophet_df
  rw [exMapM_congr_ok monthLookupStep (fun p => ((p.1.1, monthNum p.1.2), p.2))
    (ymGroups t) (fun p hp => by
      unfold monthLookupStep
      rw [(monthIndex_of_mem p.1.2 (hmem p hp)).1])]
  show exMapM timestampStep ((ymGroups t).map fun p => ((p.1.1, monthNum p.1.2), p.2))
      = Except.ok ((ymKeys t).map fun p => ((p.1, monthNum p.2), ymSum t p))
  rw [exMapM_congr_ok timestampStep id _ (fun q hq => by
    obtain ⟨p, hp, hpq⟩ := List.mem_map.mp hq
    obtain ⟨h1, h2⟩ := (monthIndex_of_mem p.1.2 (hmem p hp)).2
    unfold timestampStep toTimestamp
    rw [← hpq]
    simp only
    rw [if_pos ⟨h1, h2⟩]
    rfl)]
  rw [List.map_id]
  unfold ymGroups
  rw [List.map_map]
  rfl

/-- The two-row table (January and April 2020 only) on which the Prophet
input series is out of date order and has no rows for the in-between
months. -/
def gapTable : Table :=
  [⟨2020, "January", "East", 100, 10, 40, 30, 20⟩,
   ⟨2020, "April", "East", 100, 10, 40, 30, 20⟩]

/-- C4 counterexample: on `gapTable` the constructed series is
`[(2020-04, 100), (2020-01, 100)]` — it is not strictly ordered by date
(April precedes January because the group keys sort by month *name*), and
it has 2 rows although the covered range January–April 2020 spans 4
calendar months, so the gap months are not zero-filled. -/
theorem prophet_df_not_calendar_grid :
    prophet_df gapTable = Except.ok [((2020, 4), 100), ((2020, 1), 100)]
    ∧ dsStrictlySorted [((2020, 4), 100), ((2020, 1), 100)] = false
    ∧ ([((2020, 4), 100), ((2020, 1), 100)] : List ((Int × Nat) × Int)).length ≠ 4 :=
  ⟨by decide, by decide, by decide⟩

/-- C4 (amended): for every filtered table whose months are canonical, the
constructed series has exactly one row per distinct `(year, month)` pair
*present* in the table (absent months get no zero-filled row), the rows are
ordered by year and then month name (not by date), and the row values sum
to the table's total `birth_count`. -/
theorem prophet_df_actual_shape (t : Table) (hval : ∀ r ∈ t, r.month ∈ monthOrder) :
    prophet_df t = Except.ok ((ymKeys t).map fun p => ((p.1, monthNum p.2), ymSum t p))
    ∧ (∀ y m, (y, m) ∈ ymKeys t ↔ ∃ r ∈ t, r.year = y ∧ r.month = m)
    ∧ List.Chain' (fun a b => ymLtB a b = true) (ymKeys t)
    ∧ (((ymKeys t).map fun p => ((p.1, monthNum p.2), ymSum t p)).map Prod.snd).sum
        = total_births t := by
  refine ⟨prophet_df_ok t hval, ?_, ?_, ?_⟩
  · intro y m
    rw [mem_ymKeys]
    constructor
    · rintro ⟨r, hr, heq⟩
      obtain ⟨h1, h2⟩ := Prod.mk.injEq _ _ _ _ ▸ heq
      exact ⟨r, hr, h1, h2⟩
    · rintro ⟨r, hr, hy, hm⟩
      exact ⟨r, hr, by rw [hy, hm]⟩
  · exact chain'_keysBy ymLtB ymLtB_total (fun r => (r.year, r.month)) t
  · rw [List.map_map]
    exact sum_of_groups (fun r => (r.year, r.month)) (ymKeys t) (nodup_ymKeys t) t
      (fun r hr => (mem_ymKeys t (r.year, r.month)).mpr ⟨r, hr, rfl⟩)

/-- C4 witness: the amended C4 theorem instantiated at the concrete
`gapTable`, whose months are all canonical. -/
theorem prophet_df_actual_shape_witness :
    (∀ r ∈ gapTable, r.month ∈ monthOrder) ∧
      (prophet_df gapTable
          = Except.ok ((ymKeys gapTable).map fun p => ((p.1, monthNum p.2), ymSum gapTable p))
        ∧ (∀ y m, (y, m) ∈ ymKeys gapTable ↔ ∃ r ∈ gapTable, r.year = y ∧ r.month = m)
        ∧ List.Chain' (fun a b => ymLtB a b = true) (ymKeys gapTable)
        ∧ (((ymKeys gapTable).map fun p => ((p.1, monthNum p.2), ymSum gapTable p)).map
              Prod.snd).sum = total_births gapTable) :=
  ⟨by decide, prophet_df_actual_shape gapTable (by decide)⟩

/-- The row with a malformed month label. -/
def badRow : BirthRecord := ⟨2020, "Foo", "East", 5, 1, 2, 1, 1⟩

/-- A table containing a month value that is not a canonical month name. -/
def badMonthTable : Table := [badRow]

/-- C10: if the filtered table contains a row whose month is not one of the
twelve canonical names, the grouping still carries the malformed month
through as a distinct `(year, month)` category, but the forecast
time-series construction fails with an exception. -/
theorem prophet_df_bad_month_raises (t : Table) (r : BirthRecord) (hr : r ∈ t)
    (hbad : r.month ∉ monthOrder) :
    (r.year, r.month) ∈ ymKeys t ∧ ∃ e, prophet_df t = Except.error e := by
  have hkey : (r.year, r.month) ∈ ymKeys t :=
    (mem_ymKeys t (r.year, r.month)).mpr ⟨r, hr, rfl⟩
  refine ⟨hkey, ?_⟩
  have hpgrp : ((r.year, r.month), ymSum t (r.year, r.month)) ∈ ymGroups t :=
    List.mem_map_of_mem (fun p => (p, ymSum t p)) hkey
  unfold prophet_df
  rcases monthIndex_not_canonical r.month hbad with hnone | ⟨_, hzero⟩
  · obtain ⟨e2, he2⟩ := exMapM_error_of_mem monthLookupStep (ymGroups t) _ hpgrp
      "ValueError: month name is not in list" (by simp [monthLookupStep, hnone])
    rw [he2]
    exact ⟨e2, rfl⟩
  · cases hp1 : exMapM monthLookupStep (ymGroups t) with
    | error e => exact ⟨e, rfl⟩
    | ok l1 =>
      have hmem1 : ((r.year, 0), ymSum t (r.year, r.month)) ∈ l1 :=
        exMapM_mem_ok monthLookupStep _ _ (by simp [monthLookupStep, hzero])
          (ymGroups t) l1 hp1 hpgrp
      obtain ⟨e2, he2⟩ := exMapM_error_of_mem timestampStep l1 _ hmem1
        "ValueError: month must be in 1..12" (by simp [timestampStep, toTimestamp])
      refine ⟨e2, ?_⟩
      show exMapM timestampStep l1 = Except.error e2
      exact he2

/-- C10 witness: the C10 theorem instantiated at the concrete one-row table
whose month label is `"Foo"`. -/
theorem prophet_df_bad_month_raises_witness :
    (badRow ∈ badMonthTable ∧ badRow.month ∉ monthOrder) ∧
      ((badRow.year, badRow.month) ∈ ymKeys badMonthTable
        ∧ ∃ e, prophet_df badMonthTable = Except.error e) :=
  ⟨⟨by decide, by decide⟩,
    prophet_df_bad_month_raises badMonthTable badRow (by decide) (by decide)⟩

end ScotBirths
